import Mathlib

/-!
Shallow embedding of `src/ejecutable.py` (Pendragon503/img-folder-to-pdf).

The program enumerates the image files of a directory, sorts them by a
natural alphanumeric key, normalizes each image to RGB, computes a page
size in typographic points from pixel dimensions and DPI metadata, and
draws each image stretched onto one PDF page.

Modelling conventions:
  * Python exceptions are values of `PyExn` (class name and message);
    fallible steps return `Except PyExn _`.
  * Filesystem interaction is passed in explicitly: the directory listing
    of `os.listdir` is an `Except PyExn (List DirEntry)`, the opening and
    decoding of one image (`Image.open` plus decoding) is a function
    `String → Except PyExn PILImage`, and the final file write performed
    by `canvas.save()` is an `Except PyExn Unit`.
  * Python floats are modelled as exact rationals `ℚ`; the numeric claims
    settled here are exact in binary floating point as well.
  * Character classes (`str.isdigit`, the regex class `\d`, acceptance by
    `int`) are modelled exactly on the repertoire appearing in the claims:
    ASCII together with the Latin-1 superscript digits. Full Unicode has
    further digit characters; they behave like the modelled ones
    (superscripts: isdigit-true but not `\d`-matchable and rejected by
    `int`; other decimal digits: like ASCII digits).
-/

/-- A Python exception: class name and message. -/
structure PyExn where
  cls : String
  msg : String
deriving DecidableEq, Repr

/-- One entry of `os.listdir`: its name and whether it is a directory.
`os.listdir` returns names of files and subdirectories alike. -/
structure DirEntry where
  name : String
  isDir : Bool
deriving DecidableEq, Repr

/-- `SUPPORTED_EXT` from line 9 of the source. -/
def SUPPORTED_EXT : List String :=
  [".jpg", ".jpeg", ".png", ".webp", ".tif", ".tiff", ".bmp"]

/-- Python `str.isdigit` on one character, exact on the modelled repertoire:
ASCII digits and the Latin-1 superscript digits are isdigit-true. -/
def pyIsDigitChar (c : Char) : Bool :=
  c.isDigit || c = '¹' || c = '²' || c = '³'

/-- Python `s.isdigit()`: nonempty and every character isdigit-true. -/
def pyStrIsDigit (s : String) : Bool :=
  !s.toList.isEmpty && s.toList.all pyIsDigitChar

/-- Python `int(s)` restricted to the strings it is applied to here
(`s.isdigit()` holds): succeeds exactly on nonempty strings of decimal
digits (superscript digits are rejected with `ValueError`). -/
def pyIntOf (s : String) : Option ℕ :=
  if !s.toList.isEmpty && s.toList.all Char.isDigit then
    some (s.toList.foldl (fun acc c => 10 * acc + (c.toNat - '0'.toNat)) 0)
  else none

/-- The exception raised by `int(s)` on a non-numeral. -/
def pyValueError : PyExn :=
  ⟨"ValueError", "invalid literal for int with base 10"⟩

/-- The exception raised by Python when `<` compares a str with an int. -/
def pyTypeError : PyExn :=
  ⟨"TypeError", "unorderable types: str and int"⟩

/-- `os.path.basename` (POSIX): the part after the last slash. -/
def basename (p : String) : String :=
  String.mk ((p.toList.reverse.takeWhile (fun c => c ≠ '/')).reverse)

/-- Python `str.lower`, character by character (exact on the repertoire
used here; `Char.toLower` lowers ASCII letters and fixes the rest). -/
def toLowerStr (s : String) : String :=
  String.mk (s.toList.map Char.toLower)

/-- The extension component of `os.path.splitext` for a bare file name:
the suffix from the last dot, empty when there is no dot or when all
characters before the last dot are dots (hidden files like `.png`). -/
def splitext_ext (p : String) : String :=
  let cs := p.toList
  let extRev := cs.reverse.takeWhile (fun c => c ≠ '.')
  if extRev.length = cs.length then ""
  else
    let stem := cs.take (cs.length - extRev.length - 1)
    if stem.all (fun c => c = '.') then ""
    else String.mk ('.' :: extRev.reverse)

/-- `os.path.join` for POSIX paths as used here. -/
def pyJoin (a b : String) : String :=
  if b.toList.head? = some '/' then b
  else if a = "" ∨ a.toList.getLast? = some '/' then a ++ b
  else a ++ "/" ++ b

/-- `re.split(r"(\d+)", cs)` with fuel (the fuel is always sufficient when
called through `reSplit`): alternating runs of non-digits and digits, the
digit runs kept because the pattern is a capture group. The result starts
and ends with a (possibly empty) non-digit part. -/
def reSplitF : ℕ → List Char → List String
  | 0, _ => []
  | fuel + 1, cs =>
    let t := cs.takeWhile (fun c => !c.isDigit)
    match cs.dropWhile (fun c => !c.isDigit) with
    | [] => [String.mk t]
    | r :: rs =>
      let dd := (r :: rs).takeWhile Char.isDigit
      let rest2 := (r :: rs).dropWhile Char.isDigit
      String.mk t :: String.mk dd :: reSplitF fuel rest2

/-- `re.split(r"(\d+)", s)`. -/
def reSplit (s : String) : List String :=
  reSplitF (s.toList.length + 1) s.toList

/-- An element of the key list built by `natural_key`: Python produces a
heterogeneous list of `str` and `int` values. -/
inductive KElem where
  | str (s : String)
  | int (n : ℕ)
deriving DecidableEq, Repr

/-- Discriminant of a key element. -/
def KElem.isInt : KElem → Bool
  | .str _ => false
  | .int _ => true

/-- `int(s) if s.isdigit() else s` for one part of the split. -/
def keyElem (s : String) : Except PyExn KElem :=
  if pyStrIsDigit s then
    match pyIntOf s with
    | some n => .ok (.int n)
    | none => .error pyValueError
  else .ok (.str s)

/-- Effectful map over a list, stopping at the first exception, as a
Python list comprehension does. -/
def mapE (f : α → Except PyExn β) : List α → Except PyExn (List β)
  | [] => .ok []
  | a :: as => do
    let b ← f a
    let bs ← mapE f as
    .ok (b :: bs)

/-- `natural_key` from lines 12-18 of the source:
split the lowercased base name on digit runs and convert the digit runs
to integers. `int` can raise `ValueError` on characters that are
isdigit-true but not decimal digits. -/
def natural_key (path : String) : Except PyExn (List KElem) :=
  let name := toLowerStr (basename path)
  mapE keyElem (reSplit name)

/-- Python string comparison: lexicographic on code points. -/
def charListCompare : List Char → List Char → Ordering
  | [], [] => .eq
  | [], _ :: _ => .lt
  | _ :: _, [] => .gt
  | a :: as, b :: bs =>
    if a.toNat < b.toNat then .lt
    else if b.toNat < a.toNat then .gt
    else charListCompare as bs

/-- Comparison of two key elements: numbers with numbers, strings with
strings; comparing a str with an int raises `TypeError`. -/
def cmpKElem : KElem → KElem → Except PyExn Ordering
  | .int m, .int n =>
    .ok (if m < n then .lt else if n < m then .gt else .eq)
  | .str s, .str t => .ok (charListCompare s.toList t.toList)
  | _, _ => .error pyTypeError

/-- Python list comparison on key lists: lexicographic, a strict prefix
sorts first. -/
def cmpKey : List KElem → List KElem → Except PyExn Ordering
  | [], [] => .ok .eq
  | [], _ :: _ => .ok .lt
  | _ :: _, [] => .ok .gt
  | a :: as, b :: bs => do
    match ← cmpKElem a b with
    | .eq => cmpKey as bs
    | o => .ok o

/-- Stable insertion of a keyed element into a sorted keyed list. -/
def insertE (x : List KElem × String) :
    List (List KElem × String) → Except PyExn (List (List KElem × String))
  | [] => .ok [x]
  | y :: ys => do
    match ← cmpKey x.1 y.1 with
    | .gt => do
      let r ← insertE x ys
      .ok (y :: r)
    | _ => .ok (x :: y :: ys)

/-- Stable sort of the keyed list, propagating comparison exceptions
(`list.sort` first builds all keys, then compares only keys). -/
def sortE : List (List KElem × String) → Except PyExn (List (List KElem × String))
  | [] => .ok []
  | x :: xs => do insertE x (← sortE xs)

/-- `iter_images` from lines 21-28 of the source: keep the listing entries
whose extension, lowercased, is a supported image extension (the entry
kind is not inspected), join them to the directory, and sort by
`natural_key`. The listing itself is an `Except` so that a failing
`os.listdir` (missing directory) propagates. -/
def iter_images (input_dir : String) (listing : Except PyExn (List DirEntry)) :
    Except PyExn (List String) := do
  let entries ← listing
  let files :=
    (entries.filter
      (fun e => SUPPORTED_EXT.contains (toLowerStr (splitext_ext e.name)))).map
      (fun e => pyJoin input_dir e.name)
  let keyed ← mapE (fun f => do
    let k ← natural_key f
    Except.ok (k, f)) files
  let sorted ← sortE keyed
  .ok (sorted.map (fun kf => kf.2))

/-- One pixel, stored as its RGBA components (for modes without an alpha
channel the `a` component is 255; for mode `LA` the luminance is stored in
all three color components, which is how PIL converts it to RGB). -/
structure Pixel where
  r : ℕ
  g : ℕ
  b : ℕ
  a : ℕ
deriving DecidableEq, Repr

/-- A decoded PIL image: color mode, pixel dimensions, the optional
`info` entry `dpi` (a pair of densities), the optional EXIF orientation
tag, and the decoded pixel data. -/
structure PILImage where
  mode : String
  width : ℕ
  height : ℕ
  dpi : Option (ℚ × ℚ)
  exifOrientation : Option ℕ
  px : ℕ → ℕ → Pixel

/-- PIL's MULDIV255: exact division of a product by 255 with rounding,
as in libImaging (`tmp = a*b + 128; ((tmp >> 8) + tmp) >> 8`). -/
def muldiv255 (x y : ℕ) : ℕ :=
  ((x * y + 128) / 256 + (x * y + 128)) / 256

/-- One channel of pasting a pixel over white with its alpha as mask:
libImaging `BLEND(mask, in1, in2) = MULDIV255(in1, 255-mask) +
MULDIV255(in2, mask)` with `in1 = 255` (the white background). -/
def blendWhite (c a : ℕ) : ℕ :=
  muldiv255 255 (255 - a) + muldiv255 c a

/-- `bg.paste(img, mask=img.getchannel("A"))` at one pixel of the opaque
white background. -/
def pasteOnWhite (p : Pixel) : Pixel :=
  ⟨blendWhite p.r p.a, blendWhite p.g p.a, blendWhite p.b p.a, 255⟩

/-- `ImageOps.exif_transpose` (line 55): apply the EXIF orientation tag
(values 2-8 flip, rotate or transpose the pixel grid), remove the tag,
and keep the rest of the metadata. Other tag values leave the image
unchanged. -/
def exif_transpose (img : PILImage) : PILImage :=
  match img.exifOrientation with
  | some 2 =>
    { img with exifOrientation := none,
               px := fun x y => img.px (img.width - 1 - x) y }
  | some 3 =>
    { img with exifOrientation := none,
               px := fun x y => img.px (img.width - 1 - x) (img.height - 1 - y) }
  | some 4 =>
    { img with exifOrientation := none,
               px := fun x y => img.px x (img.height - 1 - y) }
  | some 5 =>
    { img with exifOrientation := none, width := img.height, height := img.width,
               px := fun x y => img.px y x }
  | some 6 =>
    { img with exifOrientation := none, width := img.height, height := img.width,
               px := fun x y => img.px y (img.height - 1 - x) }
  | some 7 =>
    { img with exifOrientation := none, width := img.height, height := img.width,
               px := fun x y => img.px (img.width - 1 - y) (img.height - 1 - x) }
  | some 8 =>
    { img with exifOrientation := none, width := img.height, height := img.width,
               px := fun x y => img.px (img.width - 1 - y) x }
  | _ => img

/-- The color-mode normalization of lines 58-63: an image with an alpha
or luminance-plus-alpha channel is pasted onto a fresh opaque white RGB
background of the same size (`Image.new` starts from an empty info dict
and `paste` copies no metadata, so the composited image has no DPI
entry); any other non-RGB image is converted to RGB (`convert` keeps the
info dict, and the pixel data of this model already stores the RGB
rendering of palette, CMYK or grayscale sources); an RGB image passes
through unchanged. -/
def normalize_image (img : PILImage) : PILImage :=
  if img.mode = "RGBA" ∨ img.mode = "LA" then
    { mode := "RGB", width := img.width, height := img.height,
      dpi := none, exifOrientation := none,
      px := fun x y => pasteOnWhite (img.px x y) }
  else if img.mode ≠ "RGB" then
    { img with mode := "RGB", px := fun x y => { img.px x y with a := 255 } }
  else img

/-- `image_size_in_points` from lines 31-42: points = pixels / dpi * 72,
per axis, taking the DPI pair from the image metadata when present with
both entries nonzero (Python truthiness), else the fallback for both. -/
def image_size_in_points (img : PILImage) (dpi_fallback : ℚ) : ℚ × ℚ :=
  let w_px : ℚ := (img.width : ℚ)
  let h_px : ℚ := (img.height : ℚ)
  let d : ℚ × ℚ :=
    match img.dpi with
    | some dpi =>
      if dpi.1 ≠ 0 ∧ dpi.2 ≠ 0 then (dpi.1, dpi.2)
      else (dpi_fallback, dpi_fallback)
    | none => (dpi_fallback, dpi_fallback)
  ((w_px / d.1) * 72, (h_px / d.2) * 72)

/-- One `drawImage` call recorded on a page: the image, placement,
target size, the aspect-ratio flag and the mask argument. -/
structure DrawOp where
  img : PILImage
  x : ℚ
  y : ℚ
  w : ℚ
  h : ℚ
  preserveAspectRatio : Bool
  mask : String

/-- One finalized page of the produced document. -/
structure PdfPage where
  size : ℚ × ℚ
  ops : List DrawOp

/-- A reportlab canvas: destination file name, the page size that will be
used for the page being built, the drawing operations of the page being
built, and the finalized pages. -/
structure Canvas where
  filename : String
  pagesize : ℚ × ℚ
  current : List DrawOp
  pages : List PdfPage

/-- `c.setPageSize(...)`. -/
def Canvas.setPageSize (c : Canvas) (s : ℚ × ℚ) : Canvas :=
  { c with pagesize := s }

/-- `c.drawImage(...)`. -/
def Canvas.drawImage (c : Canvas) (img : PILImage) (x y w h : ℚ)
    (par : Bool) (mask : String) : Canvas :=
  { c with current := c.current ++ [⟨img, x, y, w, h, par, mask⟩] }

/-- `c.showPage()`: finalize the page being built. -/
def Canvas.showPage (c : Canvas) : Canvas :=
  { c with pages := c.pages ++ [⟨c.pagesize, c.current⟩], current := [] }

/-- The body of the per-image loop of `convert_folder_to_pdf` (lines
52-80) for one already-opened image: EXIF transpose, normalize, compute
the page size, create the canvas (first image) or set the page size
(later images), draw the image over the whole page from the lower-left
corner with `preserveAspectRatio=False`, and finalize the page. -/
def processOne (output_pdf : String) (dpi_fallback : ℚ)
    (c : Option Canvas) (img0 : PILImage) : Canvas :=
  let img2 := normalize_image (exif_transpose img0)
  let ps := image_size_in_points img2 dpi_fallback
  let c1 :=
    match c with
    | none => Canvas.mk output_pdf ps [] []
    | some cv => cv.setPageSize ps
  (c1.drawImage img2 0 0 ps.1 ps.2 false "auto").showPage

/-- The per-image loop of `convert_folder_to_pdf`: open each file in
order (failures propagate) and process it. -/
def processLoop (output_pdf : String) (fs : String → Except PyExn PILImage)
    (dpi_fallback : ℚ) : List String → Option Canvas → Except PyExn (Option Canvas)
  | [], c => .ok c
  | path :: rest, c => do
    let img0 ← fs path
    processLoop output_pdf fs dpi_fallback rest
      (some (processOne output_pdf dpi_fallback c img0))

/-- The exception raised at line 48 when no supported image is found:
note that it is a `FileNotFoundError`, the same class `os.listdir`
raises for a missing directory. -/
def noImagesExn : PyExn :=
  ⟨"FileNotFoundError", "No encontré imágenes soportadas en esa carpeta."⟩

/-- The exception `os.listdir` raises for a missing input directory. -/
def missingDirExn : PyExn :=
  ⟨"FileNotFoundError", "No such file or directory"⟩

/-- `convert_folder_to_pdf` from lines 45-82: enumerate, fail when no
image qualifies, process every image into one page, then save
(`canvas.save()` is the only point that writes the destination file;
`writeResult` is the outcome of that write). The returned pages are the
content of the saved document. -/
def convert_folder_to_pdf (input_dir output_pdf : String)
    (listing : Except PyExn (List DirEntry))
    (fs : String → Except PyExn PILImage)
    (writeResult : Except PyExn Unit)
    (dpi_fallback : ℚ) : Except PyExn (List PdfPage) := do
  let images ← iter_images input_dir listing
  if images.isEmpty then
    .error noImagesExn
  else
    match ← processLoop output_pdf fs dpi_fallback images none with
    | none => .error ⟨"AttributeError", "NoneType object has no attribute save"⟩
    | some cv => do
      let _ ← writeResult
      .ok cv.pages

/-- The image actually drawn for a source image: EXIF-transposed and
normalized. -/
def renderedImage (img0 : PILImage) : PILImage :=
  normalize_image (exif_transpose img0)

/-- The page geometry computed for a source image: the size in points of
its rendered form. -/
def pageGeometry (img0 : PILImage) (fb : ℚ) : ℚ × ℚ :=
  image_size_in_points (renderedImage img0) fb

/-- The one page produced for a source image. -/
def pageFor (img0 : PILImage) (fb : ℚ) : PdfPage :=
  { size := pageGeometry img0 fb,
    ops := [⟨renderedImage img0, 0, 0, (pageGeometry img0 fb).1,
             (pageGeometry img0 fb).2, false, "auto"⟩] }

/-- The state of the desktop form: the three inputs and the status line. -/
structure AppState where
  input_dir : String
  output_pdf : String
  dpi_fallback : ℤ
  status : String
deriving DecidableEq, Repr

/-- `App.pick_folder` (lines 269-278) applied to the folder returned by
the directory dialog (the empty string models a cancelled dialog): store
the folder and, when no output path has been chosen yet, pre-fill the
output field with `<folder>/salida.pdf`. -/
def pick_folder (st : AppState) (folder : String) : AppState :=
  if folder ≠ "" then
    let st1 := { st with input_dir := folder,
                         status := "📁 Carpeta seleccionada: " ++ folder }
    if st1.output_pdf = "" then
      { st1 with output_pdf := pyJoin folder "salida.pdf" }
    else st1
  else st

/-- The lowercased base-name characters of a path — exactly the
characters the split of `natural_key` works on. -/
def baseLower (p : String) : List Char :=
  (toLowerStr (basename p)).toList

/-- Character lists on which `str.isdigit` implies membership in the
regex class `\d` (no superscript digits): the names on which
`natural_key` cannot raise `ValueError`. -/
def GoodName (cs : List Char) : Prop :=
  (cs.all fun c => !pyIsDigitChar c || c.isDigit) = true

/-- Shape of a split result: parts alternate between non-digit runs
(possibly empty) and nonempty digit runs; the flag tells whether the
next part is a digit run. -/
def PartsShape : Bool → List String → Prop
  | _, [] => True
  | b, s :: rest =>
    (if b then s ≠ "" ∧ ∀ c ∈ s.toList, c.isDigit = true
     else ∀ c ∈ s.toList, c.isDigit = false) ∧ PartsShape (!b) rest

/-- Shape of a natural key: elements alternate between strings and
integers; the flag tells whether the next element is an integer, so
`AltShape false` keys hold strings at even and integers at odd
positions. -/
def AltShape : Bool → List KElem → Prop
  | _, [] => True
  | b, e :: rest => e.isInt = b ∧ AltShape (!b) rest

/-- A constant pixel field used by the concrete example images. -/
def constPx : ℕ → ℕ → Pixel := fun _ _ => ⟨10, 20, 30, 255⟩

/-- Concrete image: RGB, 300×600 px, no DPI metadata. -/
def imFallback : PILImage := ⟨"RGB", 300, 600, none, none, constPx⟩

/-- Concrete image: RGB, 72×144 px, DPI metadata (72, 72). -/
def imMeta72 : PILImage := ⟨"RGB", 72, 144, some (72, 72), none, constPx⟩

/-- Concrete image: RGBA with fully opaque pixels. -/
def imRGBA : PILImage := ⟨"RGBA", 2, 2, some (72, 72), none, constPx⟩

/-- Concrete image: RGB, 100×200 px, DPI metadata (100, 100). -/
def imA : PILImage := ⟨"RGB", 100, 200, some (100, 100), none, constPx⟩

/-- A filesystem on which every open succeeds with `imA`. -/
def fsA : String → Except PyExn PILImage := fun _ => .ok imA

/-- The exception PIL raises for an unreadable image file. -/
def openFailExn : PyExn := ⟨"UnidentifiedImageError", "cannot identify image file"⟩

/-- A filesystem on which every open fails. -/
def fsBad : String → Except PyExn PILImage := fun _ => .error openFailExn

/-- The exception of a failing destination write. -/
def writeFailExn : PyExn := ⟨"OSError", "disk full"⟩

/-! ## Helper lemmas -/

set_option maxRecDepth 4096 in
theorem blendWhite_opaque : ∀ c < 256, blendWhite c 255 = c := by decide

/-! ## Claim theorems -/

/-- C2: the enumerator orders files by the natural key of the lowercased
base name, split into alternating non-digit and digit runs with digit
runs as integers; for a directory holding exactly `img2.png`,
`img10.png`, `img1.png`, `iter_images` yields `img1.png`, `img2.png`,
`img10.png`. -/
theorem iter_images_natural_order_example :
    iter_images "d" (.ok [⟨"img2.png", false⟩, ⟨"img10.png", false⟩, ⟨"img1.png", false⟩]) =
      .ok ["d/img1.png", "d/img2.png", "d/img10.png"] ∧
    natural_key "d/img1.png" = .ok [.str "img", .int 1, .str ".png"] ∧
    natural_key "d/img2.png" = .ok [.str "img", .int 2, .str ".png"] ∧
    natural_key "d/img10.png" = .ok [.str "img", .int 10, .str ".png"] ∧
    natural_key "d/IMG2.PNG" = .ok [.str "img", .int 2, .str ".png"] :=
  ⟨rfl, rfl, rfl, rfl, rfl⟩

/-- C4: page size in points is `pixels / dpi * 72` per axis, with the
per-axis DPI metadata used when both axes are positive, and the fallback
DPI used for both axes when the metadata is absent or zero in either
axis (DPI metadata of real images is never negative, which the
positivity hypotheses reflect). -/
theorem image_size_in_points_dpi_selection :
    ∀ (img : PILImage) (fb : ℚ), 0 < fb →
      (∀ x y : ℚ, img.dpi = some (x, y) → 0 < x → 0 < y →
        image_size_in_points img fb =
          (((img.width : ℚ) / x) * 72, ((img.height : ℚ) / y) * 72)) ∧
      (img.dpi = none →
        image_size_in_points img fb =
          (((img.width : ℚ) / fb) * 72, ((img.height : ℚ) / fb) * 72)) ∧
      (∀ x y : ℚ, img.dpi = some (x, y) → x = 0 ∨ y = 0 →
        image_size_in_points img fb =
          (((img.width : ℚ) / fb) * 72, ((img.height : ℚ) / fb) * 72)) := by
  intro img fb _
  refine ⟨?_, ?_, ?_⟩
  · intro x y hd hx hy
    simp [image_size_in_points, hd, ne_of_gt hx, ne_of_gt hy]
  · intro hd
    simp [image_size_in_points, hd]
  · intro x y hd hxy
    have hne : ¬(x ≠ 0 ∧ y ≠ 0) := by
      rcases hxy with h | h <;> simp [h]
    simp [image_size_in_points, hd, hne]

/-- Witness for C4: the metadata branch on a concrete image with DPI
(100, 100), and the fallback branch on a concrete image with no DPI
metadata. -/
theorem image_size_in_points_dpi_selection_witness :
    image_size_in_points imA 150 =
      (((imA.width : ℚ) / 100) * 72, ((imA.height : ℚ) / 100) * 72) ∧
    image_size_in_points imFallback 150 =
      (((imFallback.width : ℚ) / 150) * 72, ((imFallback.height : ℚ) / 150) * 72) :=
  ⟨(image_size_in_points_dpi_selection imA 150 (by norm_num)).1 100 100 rfl
      (by norm_num) (by norm_num),
   (image_size_in_points_dpi_selection imFallback 150 (by norm_num)).2.1 rfl⟩

/-- C7: the two numeric examples of the spec: no DPI metadata, 300×600
pixels and fallback 150 gives (144, 288) points; DPI metadata (72, 72)
with 72×144 pixels gives (72, 144) points for every fallback value. -/
theorem image_size_in_points_examples :
    (∀ img : PILImage, img.dpi = none → img.width = 300 → img.height = 600 →
      image_size_in_points img 150 = ((144 : ℚ), (288 : ℚ))) ∧
    (∀ (img : PILImage) (fb : ℚ), img.dpi = some ((72 : ℚ), (72 : ℚ)) →
      img.width = 72 → img.height = 144 →
      image_size_in_points img fb = ((72 : ℚ), (144 : ℚ))) := by
  constructor
  · intro img hd hw hh
    simp [image_size_in_points, hd, hw, hh]
    norm_num
  · intro img fb hd hw hh
    simp [image_size_in_points, hd, hw, hh]

/-- Witness for C7: both examples evaluated on concrete images. -/
theorem image_size_in_points_examples_witness :
    image_size_in_points imFallback 150 = ((144 : ℚ), (288 : ℚ)) ∧
    image_size_in_points imMeta72 5 = ((72 : ℚ), (144 : ℚ)) :=
  ⟨image_size_in_points_examples.1 imFallback rfl rfl rfl,
   image_size_in_points_examples.2 imMeta72 5 rfl rfl rfl⟩

/-- Counterexample to C9: after picking folder `d` with no output chosen,
the pre-filled suggestion is `d/salida.pdf`, not `d/output.pdf`. -/
theorem pick_folder_counterexample :
    (pick_folder ⟨"", "", 300, "Listo"⟩ "d").output_pdf = "d/salida.pdf" ∧
    "d/salida.pdf" ≠ "d/output.pdf" :=
  ⟨rfl, by decide⟩

/-- C9 as amended: when the user picks an input folder and no output path
has been chosen yet, the save-file field is pre-filled with
`<input_dir>/salida.pdf`. -/
theorem pick_folder_default_suggestion :
    ∀ (st : AppState) (folder : String), folder ≠ "" → st.output_pdf = "" →
      (pick_folder st folder).input_dir = folder ∧
      (pick_folder st folder).output_pdf = pyJoin folder "salida.pdf" := by
  intro st folder hf ho
  simp [pick_folder, hf, ho]

/-- Witness for the amended C9 at a concrete state and folder. -/
theorem pick_folder_default_suggestion_witness :
    (pick_folder ⟨"", "", 300, "s"⟩ "g").input_dir = "g" ∧
    (pick_folder ⟨"", "", 300, "s"⟩ "g").output_pdf = pyJoin "g" "salida.pdf" :=
  pick_folder_default_suggestion ⟨"", "", 300, "s"⟩ "g" (by decide) rfl

/-- Counterexample to C5: the "no images found" condition is raised as a
`FileNotFoundError`, the very exception class of the I/O error a missing
input directory produces, so the two conditions are not surfaced
distinctly (they differ only in message). -/
theorem no_images_error_class_counterexample :
    convert_folder_to_pdf "d" "out.pdf" (.ok []) fsA (.ok ()) 300 = .error noImagesExn ∧
    convert_folder_to_pdf "d" "out.pdf" (.error missingDirExn) fsA (.ok ()) 300 =
      .error missingDirExn ∧
    noImagesExn.cls = missingDirExn.cls :=
  ⟨rfl, rfl, rfl⟩

/-- C5 as amended: on a directory with zero qualifying images the core
conversion raises the "no images found" condition before any output file
is created (the conclusion holds for every write outcome, so the save
step is never reached); the condition is a `FileNotFoundError` — the
same exception class as a missing input directory — distinguished from
that I/O error only by its message. -/
theorem no_images_error_spec :
    ∀ (d o : String) (listing : Except PyExn (List DirEntry))
      (fs : String → Except PyExn PILImage) (wr : Except PyExn Unit) (fb : ℚ),
      iter_images d listing = .ok [] →
      convert_folder_to_pdf d o listing fs wr fb = .error noImagesExn ∧
      noImagesExn.cls = "FileNotFoundError" ∧
      noImagesExn.msg ≠ missingDirExn.msg := by
  intro d o listing fs wr fb h
  refine ⟨?_, rfl, by decide⟩
  simp only [convert_folder_to_pdf, h]
  rfl

/-- Witness for the amended C5: a concrete empty listing, with a failing
write outcome, still surfaces exactly the "no images" condition. -/
theorem no_images_error_spec_witness :
    convert_folder_to_pdf "d" "o" (.ok []) fsA (.error writeFailExn) 300 =
      .error noImagesExn ∧
    noImagesExn.cls = "FileNotFoundError" ∧
    noImagesExn.msg ≠ missingDirExn.msg :=
  no_images_error_spec "d" "o" (.ok []) fsA (.error writeFailExn) 300 rfl

/-- C6: normalization yields an RGB image of the same pixel dimensions;
an RGBA or LA source is composited over opaque white, and its fully
opaque pixels keep their source color channels; an already-RGB image
passes through unchanged (and every other mode is converted to RGB,
which the first conjunct covers). -/
theorem normalize_image_spec :
    ∀ img : PILImage,
      (normalize_image img).mode = "RGB" ∧
      (normalize_image img).width = img.width ∧
      (normalize_image img).height = img.height ∧
      ((img.mode = "RGBA" ∨ img.mode = "LA") → ∀ x y : ℕ,
        (img.px x y).a = 255 → (img.px x y).r < 256 → (img.px x y).g < 256 →
        (img.px x y).b < 256 →
        ((normalize_image img).px x y).r = (img.px x y).r ∧
        ((normalize_image img).px x y).g = (img.px x y).g ∧
        ((normalize_image img).px x y).b = (img.px x y).b ∧
        ((normalize_image img).px x y).a = 255) ∧
      (img.mode = "RGB" → normalize_image img = img) := by
  intro img
  by_cases hA : img.mode = "RGBA" ∨ img.mode = "LA"
  · refine ⟨by simp [normalize_image, hA], by simp [normalize_image, hA],
      by simp [normalize_image, hA], ?_, ?_⟩
    · intro _ x y ha hr hg hb
      simp only [normalize_image, if_pos hA]
      exact ⟨by simp [pasteOnWhite, ha, blendWhite_opaque _ hr],
        by simp [pasteOnWhite, ha, blendWhite_opaque _ hg],
        by simp [pasteOnWhite, ha, blendWhite_opaque _ hb], rfl⟩
    · intro hRGB
      rcases hA with h | h <;> rw [hRGB] at h <;> exact absurd h (by decide)
  · by_cases hR : img.mode = "RGB"
    · have hid : normalize_image img = img := by simp [normalize_image, hA, hR]
      exact ⟨by rw [hid, hR], by rw [hid], by rw [hid],
        fun h => absurd h hA, fun _ => hid⟩
    · refine ⟨by simp [normalize_image, hA, hR], by simp [normalize_image, hA, hR],
        by simp [normalize_image, hA, hR], fun h => absurd h hA, fun h => absurd h hR⟩

/-- Witness for C6: the concrete RGBA image is normalized to RGB and its
opaque pixel keeps its red channel. -/
theorem normalize_image_spec_witness :
    (normalize_image imRGBA).mode = "RGB" ∧
    ((normalize_image imRGBA).px 0 0).r = (imRGBA.px 0 0).r :=
  ⟨(normalize_image_spec imRGBA).1,
   ((normalize_image_spec imRGBA).2.2.2.1 (Or.inl rfl) 0 0 rfl
      (by decide) (by decide) (by decide)).1⟩

/-! ## Conversion-loop lemmas (for C1 and C8) -/

theorem pyBind_ok (a : α) (f : α → Except PyExn β) :
    (Except.ok a >>= f) = f a := rfl

theorem pyBind_err (e : PyExn) (f : α → Except PyExn β) :
    ((Except.error e : Except PyExn α) >>= f) = .error e := rfl

theorem getD_map_of_lt (f : α → β) (db : β) (da : α) :
    ∀ (l : List α) (i : ℕ), i < l.length → (l.map f).getD i db = f (l.getD i da) := by
  intro l
  induction l with
  | nil => intro i h; simp at h
  | cons a as ih =>
    intro i h
    cases i with
    | zero => rfl
    | succ j => exact ih j (by simpa using h)

theorem processOne_none (o : String) (fb : ℚ) (im : PILImage) :
    processOne o fb none im =
      { filename := o, pagesize := pageGeometry im fb, current := [],
        pages := [pageFor im fb] } := rfl

theorem processOne_some (o : String) (fb : ℚ) (cv : Canvas) (hc : cv.current = [])
    (im : PILImage) :
    processOne o fb (some cv) im =
      { filename := cv.filename, pagesize := pageGeometry im fb, current := [],
        pages := cv.pages ++ [pageFor im fb] } := by
  simp [processOne, Canvas.setPageSize, Canvas.drawImage, Canvas.showPage, hc,
    pageFor, pageGeometry, renderedImage]

theorem processLoop_ok (o : String) (fs : String → Except PyExn PILImage) (fb : ℚ)
    (F : String → PILImage) :
    ∀ (paths : List String) (cv : Canvas), (∀ q ∈ paths, fs q = .ok (F q)) →
      cv.current = [] →
      ∃ cv2, processLoop o fs fb paths (some cv) = .ok (some cv2) ∧
        cv2.pages = cv.pages ++ paths.map (fun q => pageFor (F q) fb) ∧
        cv2.current = [] ∧ cv2.filename = cv.filename := by
  intro paths
  induction paths with
  | nil =>
    intro cv _ hc
    exact ⟨cv, rfl, by simp, hc, rfl⟩
  | cons p rest ih =>
    intro cv hfs hc
    have hp : fs p = .ok (F p) := hfs p (List.mem_cons_self p rest)
    obtain ⟨cv2, h1, h2, h3, h4⟩ :=
      ih (processOne o fb (some cv) (F p))
        (fun q hq => hfs q (List.mem_cons_of_mem p hq))
        (by rw [processOne_some o fb cv hc])
    refine ⟨cv2, ?_, ?_, h3, ?_⟩
    · simp only [processLoop, hp, pyBind_ok]
      exact h1
    · rw [h2, processOne_some o fb cv hc]
      simp
    · rw [h4, processOne_some o fb cv hc]

theorem processLoop_first_error (o : String) (fs : String → Except PyExn PILImage)
    (fb : ℚ) (p : String) (post : List String) (e : PyExn) (hp : fs p = .error e) :
    ∀ (pre : List String) (c : Option Canvas), (∀ q ∈ pre, ∃ im, fs q = .ok im) →
      processLoop o fs fb (pre ++ p :: post) c = .error e := by
  intro pre
  induction pre with
  | nil =>
    intro c _
    simp only [List.nil_append, processLoop, hp, pyBind_err]
  | cons q qs ih =>
    intro c hq
    obtain ⟨im, him⟩ := hq q (List.mem_cons_self q qs)
    simp only [List.cons_append, processLoop, him, pyBind_ok]
    exact ih _ (fun r hr => hq r (List.mem_cons_of_mem q hr))

/-- C1: on a non-empty ordered list of qualifying images (all of which
open successfully, with the final write succeeding), the conversion
produces a single document whose pages are exactly one per image, in
enumeration order; each page's size is that image's computed page
geometry in points, and its only drawing operation stretches the
rendered image over the full page from the lower-left corner with
`preserveAspectRatio=False`. -/
theorem convert_pages_spec :
    ∀ (d o : String) (listing : Except PyExn (List DirEntry))
      (fs : String → Except PyExn PILImage) (F : String → PILImage)
      (wr : Except PyExn Unit) (fb : ℚ) (images : List String),
      iter_images d listing = .ok images → images ≠ [] →
      (∀ q ∈ images, fs q = .ok (F q)) → wr = .ok () →
      convert_folder_to_pdf d o listing fs wr fb =
        .ok (images.map (fun q => pageFor (F q) fb)) ∧
      (images.map (fun q => pageFor (F q) fb)).length = images.length ∧
      (∀ i, i < images.length →
        ((images.map (fun q => pageFor (F q) fb)).getD i ⟨(0, 0), []⟩).size =
          pageGeometry (F (images.getD i "")) fb ∧
        ((images.map (fun q => pageFor (F q) fb)).getD i ⟨(0, 0), []⟩).ops =
          [⟨renderedImage (F (images.getD i "")), 0, 0,
            (pageGeometry (F (images.getD i "")) fb).1,
            (pageGeometry (F (images.getD i "")) fb).2, false, "auto"⟩]) := by
  intro d o listing fs F wr fb images hiter hne hfs hwr
  refine ⟨?_, by simp, ?_⟩
  · cases images with
    | nil => exact absurd rfl hne
    | cons p rest =>
      have hp : fs p = .ok (F p) := hfs p (List.mem_cons_self p rest)
      obtain ⟨cv2, h1, h2, h3, h4⟩ :=
        processLoop_ok o fs fb F rest
          { filename := o, pagesize := pageGeometry (F p) fb, current := [],
            pages := [pageFor (F p) fb] }
          (fun q hq => hfs q (List.mem_cons_of_mem p hq)) rfl
      simp only [convert_folder_to_pdf, hiter, pyBind_ok, List.isEmpty_cons,
        Bool.false_eq_true, if_false, processLoop, hp, processOne_none, h1, hwr]
      simp [h2]
  · intro i hi
    rw [getD_map_of_lt (fun q => pageFor (F q) fb) ⟨(0, 0), []⟩ "" images i hi]
    exact ⟨rfl, rfl⟩

/-- Witness for C1: one concrete image file converted to the one-page
document described by the theorem. -/
theorem convert_pages_spec_witness :
    convert_folder_to_pdf "d" "o" (.ok [⟨"a.png", false⟩]) fsA (.ok ()) 300 =
      .ok (["d/a.png"].map (fun q => pageFor ((fun _ => imA) q) 300)) :=
  (convert_pages_spec "d" "o" (.ok [⟨"a.png", false⟩]) fsA (fun _ => imA)
    (.ok ()) 300 ["d/a.png"] rfl (List.cons_ne_nil _ _) (fun _ _ => rfl) rfl).1

/-- C8: a failure opening or decoding an image propagates out of the
conversion unmodified (the first failing file in enumeration order
determines the exception), and a failure of the destination write at
save time propagates unmodified as well; nothing is retried, recovered
or cleaned up — the result is exactly the original exception. -/
theorem convert_error_propagation :
    (∀ (d o : String) (listing : Except PyExn (List DirEntry))
       (fs : String → Except PyExn PILImage) (wr : Except PyExn Unit) (fb : ℚ)
       (images pre post : List String) (p : String) (e : PyExn),
       iter_images d listing = .ok images → images = pre ++ p :: post →
       (∀ q ∈ pre, ∃ im, fs q = .ok im) → fs p = .error e →
       convert_folder_to_pdf d o listing fs wr fb = .error e) ∧
    (∀ (d o : String) (listing : Except PyExn (List DirEntry))
       (fs : String → Except PyExn PILImage) (F : String → PILImage)
       (wr : Except PyExn Unit) (fb : ℚ) (images : List String) (e : PyExn),
       iter_images d listing = .ok images → images ≠ [] →
       (∀ q ∈ images, fs q = .ok (F q)) → wr = .error e →
       convert_folder_to_pdf d o listing fs wr fb = .error e) := by
  constructor
  · intro d o listing fs wr fb images pre post p e hiter himg hpre hp
    have hloop := processLoop_first_error o fs fb p post e hp pre none hpre
    subst himg
    have hne : (pre ++ p :: post).isEmpty = false := by cases pre <;> simp
    simp only [convert_folder_to_pdf, hiter, pyBind_ok, hne, Bool.false_eq_true,
      if_false, hloop, pyBind_err]
  · intro d o listing fs F wr fb images e hiter hne hfs hwr
    cases images with
    | nil => exact absurd rfl hne
    | cons p rest =>
      have hp : fs p = .ok (F p) := hfs p (List.mem_cons_self p rest)
      obtain ⟨cv2, h1, _, _, _⟩ :=
        processLoop_ok o fs fb F rest
          { filename := o, pagesize := pageGeometry (F p) fb, current := [],
            pages := [pageFor (F p) fb] }
          (fun q hq => hfs q (List.mem_cons_of_mem p hq)) rfl
      simp only [convert_folder_to_pdf, hiter, pyBind_ok, List.isEmpty_cons,
        Bool.false_eq_true, if_false, processLoop, hp, processOne_none, h1, hwr,
        pyBind_err]

/-- Witness for C8: a concrete failing open propagates its exception, and
a concrete failing write propagates its exception. -/
theorem convert_error_propagation_witness :
    convert_folder_to_pdf "d" "o" (.ok [⟨"a.png", false⟩]) fsBad (.ok ()) 300 =
      .error openFailExn ∧
    convert_folder_to_pdf "d" "o" (.ok [⟨"a.png", false⟩]) fsA
      (.error writeFailExn) 300 = .error writeFailExn :=
  ⟨convert_error_propagation.1 "d" "o" (.ok [⟨"a.png", false⟩]) fsBad (.ok ()) 300
      ["d/a.png"] [] [] "d/a.png" openFailExn rfl rfl
      (fun q hq => absurd hq (List.not_mem_nil q)) rfl,
   convert_error_propagation.2 "d" "o" (.ok [⟨"a.png", false⟩]) fsA (fun _ => imA)
      (.error writeFailExn) 300 ["d/a.png"] writeFailExn rfl
      (List.cons_ne_nil _ _) (fun _ _ => rfl) rfl⟩

/-! ## Enumeration membership lemmas (for C3) -/

theorem mapE_keyed_snd :
    ∀ (files : List String) (keyed : List (List KElem × String)),
      mapE (fun f => do
        let k ← natural_key f
        Except.ok (k, f)) files = .ok keyed →
      keyed.map Prod.snd = files := by
  intro files
  induction files with
  | nil =>
    intro keyed h
    simp only [mapE] at h
    injection h with h
    rw [← h]
    rfl
  | cons f rest ih =>
    intro keyed h
    simp only [mapE] at h
    cases hk : natural_key f with
    | error e => rw [hk] at h; simp [pyBind_err] at h
    | ok k =>
      rw [hk] at h
      simp only [pyBind_ok] at h
      cases hrest : mapE (fun f => do
          let k ← natural_key f
          Except.ok (k, f)) rest with
      | error e => rw [hrest] at h; simp [pyBind_err] at h
      | ok bs =>
        rw [hrest] at h
        simp only [pyBind_ok] at h
        injection h with h
        rw [← h]
        simp [ih bs hrest]

theorem insertE_mem :
    ∀ (l : List (List KElem × String)) (x : List KElem × String)
      (r : List (List KElem × String)), insertE x l = .ok r →
      ∀ z, z ∈ r ↔ z = x ∨ z ∈ l := by
  intro l
  induction l with
  | nil =>
    intro x r h z
    simp only [insertE] at h
    injection h with h
    rw [← h]
    simp
  | cons y ys ih =>
    intro x r h z
    simp only [insertE] at h
    cases hc : cmpKey x.1 y.1 with
    | error e => rw [hc] at h; simp [pyBind_err] at h
    | ok o =>
      rw [hc] at h
      simp only [pyBind_ok] at h
      cases o with
      | gt =>
        cases hr : insertE x ys with
        | error e => rw [hr] at h; simp [pyBind_err] at h
        | ok r2 =>
          rw [hr] at h
          simp only [pyBind_ok] at h
          injection h with h
          rw [← h]
          have := ih x r2 hr z
          simp only [List.mem_cons, this]
          tauto
      | lt =>
        injection h with h
        rw [← h]
        simp only [List.mem_cons]
      | eq =>
        injection h with h
        rw [← h]
        simp only [List.mem_cons]

theorem sortE_mem :
    ∀ (l r : List (List KElem × String)), sortE l = .ok r →
      ∀ z, z ∈ r ↔ z ∈ l := by
  intro l
  induction l with
  | nil =>
    intro r h z
    simp only [sortE] at h
    injection h with h
    rw [← h]
  | cons x xs ih =>
    intro r h z
    simp only [sortE] at h
    cases hs : sortE xs with
    | error e => rw [hs] at h; simp [pyBind_err] at h
    | ok r1 =>
      rw [hs] at h
      simp only [pyBind_ok] at h
      rw [insertE_mem r1 x r h z, ih r1 hs z]
      simp [List.mem_cons]

/-- Counterexample to C3: `iter_images` does not exclude subdirectories —
a directory entry named `sub.jpeg` that is itself a subdirectory is
returned, because the code filters on the extension only and never
checks the entry kind. -/
theorem iter_images_subdir_counterexample :
    iter_images "d" (.ok [⟨"a.png", false⟩, ⟨"sub.jpeg", true⟩]) =
      .ok ["d/a.png", "d/sub.jpeg"] ∧
    (⟨"sub.jpeg", true⟩ : DirEntry).isDir = true :=
  ⟨rfl, rfl⟩

/-- C3 as amended: `iter_images` returns exactly those listing entries
whose extension, lowercased, is one of the supported extensions,
regardless of whether the entry is a file or a subdirectory (the entry
kind is never inspected); in particular `a.png, b.txt, c.JPEG` yields
exactly `a.png, c.JPEG`. -/
theorem iter_images_extension_filter :
    (∀ (d : String) (entries : List DirEntry) (res : List String),
      iter_images d (.ok entries) = .ok res →
      ∀ p : String, p ∈ res ↔ ∃ ent ∈ entries,
        p = pyJoin d ent.name ∧
        toLowerStr (splitext_ext ent.name) ∈ SUPPORTED_EXT) ∧
    iter_images "d" (.ok [⟨"a.png", false⟩, ⟨"b.txt", false⟩, ⟨"c.JPEG", false⟩]) =
      .ok ["d/a.png", "d/c.JPEG"] := by
  constructor
  · intro d entries res h p
    simp only [iter_images, pyBind_ok] at h
    cases hK : mapE (fun f => do
        let k ← natural_key f
        Except.ok (k, f))
        ((entries.filter
          (fun e => SUPPORTED_EXT.contains (toLowerStr (splitext_ext e.name)))).map
          (fun e => pyJoin d e.name)) with
    | error e => rw [hK] at h; simp [pyBind_err] at h
    | ok keyed =>
      rw [hK] at h
      simp only [pyBind_ok] at h
      cases hS : sortE keyed with
      | error e => rw [hS] at h; simp [pyBind_err] at h
      | ok sorted =>
        rw [hS] at h
        simp only [pyBind_ok] at h
        injection h with h
        rw [← h]
        have hmm := mapE_keyed_snd _ keyed hK
        constructor
        · intro hp
          obtain ⟨kf, hkf, hkp⟩ := List.mem_map.1 hp
          have hk2 : kf ∈ keyed := (sortE_mem keyed sorted hS kf).1 hkf
          have hpf : p ∈ (entries.filter
              (fun e => SUPPORTED_EXT.contains (toLowerStr (splitext_ext e.name)))).map
              (fun e => pyJoin d e.name) := by
            rw [← hmm]
            exact List.mem_map.2 ⟨kf, hk2, hkp⟩
          obtain ⟨ent, hent, hpj⟩ := List.mem_map.1 hpf
          have hent2 := List.mem_filter.1 hent
          refine ⟨ent, hent2.1, hpj.symm, ?_⟩
          have := hent2.2
          simpa [List.elem_iff] using this
        · rintro ⟨ent, hent, rfl, hext⟩
          have hpf : pyJoin d ent.name ∈ (entries.filter
              (fun e => SUPPORTED_EXT.contains (toLowerStr (splitext_ext e.name)))).map
              (fun e => pyJoin d e.name) :=
            List.mem_map.2 ⟨ent, List.mem_filter.2 ⟨hent, by
              simpa [List.elem_iff] using hext⟩, rfl⟩
          rw [← hmm] at hpf
          obtain ⟨kf, hkf, hkp⟩ := List.mem_map.1 hpf
          exact List.mem_map.2 ⟨kf, (sortE_mem keyed sorted hS kf).2 hkf, hkp⟩
  · rfl

/-- Witness for the amended C3: the membership characterization applied
at a concrete listing, yielding that the matching subdirectory entry is
in the result. -/
theorem iter_images_extension_filter_witness :
    "d/sub.jpeg" ∈ ["d/a.png", "d/sub.jpeg"] ↔
      ∃ ent ∈ [(⟨"a.png", false⟩ : DirEntry), ⟨"sub.jpeg", true⟩],
        "d/sub.jpeg" = pyJoin "d" ent.name ∧
        toLowerStr (splitext_ext ent.name) ∈ SUPPORTED_EXT :=
  iter_images_extension_filter.1 "d" [⟨"a.png", false⟩, ⟨"sub.jpeg", true⟩]
    ["d/a.png", "d/sub.jpeg"] rfl "d/sub.jpeg"

/-! ## Natural-key shape lemmas (for C10) -/

theorem length_dropWhile_le (p : α → Bool) :
    ∀ l : List α, (l.dropWhile p).length ≤ l.length := by
  intro l
  induction l with
  | nil => simp [List.dropWhile]
  | cons a as ih =>
    simp only [List.dropWhile]
    split
    · exact Nat.le_succ_of_le ih
    · simp

theorem dropWhile_head_false (p : α → Bool) :
    ∀ (l : List α) (a : α) (as : List α), l.dropWhile p = a :: as → p a = false := by
  intro l
  induction l with
  | nil => intro a as h; simp [List.dropWhile] at h
  | cons b bs ih =>
    intro a as h
    simp only [List.dropWhile] at h
    split at h
    · exact ih a as h
    · cases h; simpa using by assumption

theorem mk_cons_ne_empty (c : Char) (l : List Char) : String.mk (c :: l) ≠ "" := by
  intro h
  have := congrArg String.data h
  simp at this

theorem not_isEmpty_of_ne_nil (l : List Char) (h : l ≠ []) : l.isEmpty = false := by
  cases l with
  | nil => exact absurd rfl h
  | cons a as => rfl

theorem reSplitF_shape :
    ∀ (fuel : ℕ) (cs : List Char), cs.length < fuel →
      PartsShape false (reSplitF fuel cs) ∧
      ∀ s ∈ reSplitF fuel cs, ∀ c ∈ s.toList, c ∈ cs := by
  intro fuel
  induction fuel with
  | zero => intro cs h; omega
  | succ n ih =>
    intro cs hlen
    simp only [reSplitF]
    cases hdrop : cs.dropWhile (fun c => !c.isDigit) with
    | nil =>
      refine ⟨⟨?_, trivial⟩, ?_⟩
      · intro c hc
        have hc2 : c ∈ cs.takeWhile (fun c => !c.isDigit) := hc
        have := List.mem_takeWhile_imp hc2
        simpa using this
      · intro s hs c hc
        have hs2 : s = String.mk (cs.takeWhile (fun c => !c.isDigit)) := by
          simpa using hs
        subst hs2
        have hc2 : c ∈ cs.takeWhile (fun c : Char => !c.isDigit) := hc
        exact (List.takeWhile_sublist (fun c : Char => !c.isDigit)).mem hc2
    | cons r rs =>
      have hr : (fun c => !c.isDigit) r = false := dropWhile_head_false _ cs r rs hdrop
      have hrd : r.isDigit = true := by simpa using hr
      have htake : (r :: rs).takeWhile Char.isDigit = r :: rs.takeWhile Char.isDigit := by
        simp [List.takeWhile, hrd]
      have hrest2 : (r :: rs).dropWhile Char.isDigit = rs.dropWhile Char.isDigit := by
        simp [List.dropWhile, hrd]
      have hlen2 : ((r :: rs).dropWhile Char.isDigit).length < n := by
        have h1 : (cs.dropWhile (fun c => !c.isDigit)).length ≤ cs.length :=
          length_dropWhile_le _ cs
        rw [hdrop] at h1
        have h2 := length_dropWhile_le Char.isDigit rs
        rw [hrest2]
        simp only [List.length_cons] at h1
        omega
      obtain ⟨ihs, ihm⟩ := ih ((r :: rs).dropWhile Char.isDigit) hlen2
      have hmemdrop : ∀ c : Char, c ∈ (r :: rs) → c ∈ cs := by
        intro c hc
        have hc3 : c ∈ cs.dropWhile (fun c : Char => !c.isDigit) := by
          rw [hdrop]; exact hc
        exact (List.dropWhile_sublist (fun c : Char => !c.isDigit)).mem hc3
      refine ⟨?_, ?_⟩
      · have ht : ∀ c ∈ (String.mk (cs.takeWhile (fun c => !c.isDigit))).toList,
            c.isDigit = false := by
          intro c hc
          have hc2 : c ∈ cs.takeWhile (fun c : Char => !c.isDigit) := hc
          have := List.mem_takeWhile_imp hc2
          simpa using this
        have hne2 : String.mk ((r :: rs).takeWhile Char.isDigit) ≠ "" := by
          rw [htake]
          exact mk_cons_ne_empty r (rs.takeWhile Char.isDigit)
        have hdd : ∀ c ∈ (String.mk ((r :: rs).takeWhile Char.isDigit)).toList,
            c.isDigit = true := by
          intro c hc
          have hc2 : c ∈ (r :: rs).takeWhile Char.isDigit := hc
          exact List.mem_takeWhile_imp hc2
        exact ⟨ht, ⟨hne2, hdd⟩, ihs⟩
      · intro s hs c hc
        simp only [List.mem_cons] at hs
        rcases hs with rfl | rfl | hs
        · have hc2 : c ∈ cs.takeWhile (fun c : Char => !c.isDigit) := hc
          exact (List.takeWhile_sublist (fun c : Char => !c.isDigit)).mem hc2
        · have hc2 : c ∈ (r :: rs).takeWhile Char.isDigit := hc
          exact hmemdrop c ((List.takeWhile_sublist Char.isDigit).mem hc2)
        · have := ihm s hs c hc
          exact hmemdrop c ((List.dropWhile_sublist Char.isDigit).mem this)

theorem toList_eq_nil_iff (s : String) : s.toList = [] ↔ s = "" := by
  cases s with
  | mk data =>
    constructor
    · intro h
      have hd : data = [] := h
      subst hd
      rfl
    · intro h
      have := congrArg String.data h
      simpa using this

theorem mapE_keyElem_shape :
    ∀ (parts : List String) (b : Bool), PartsShape b parts →
      (∀ s ∈ parts, ∀ c ∈ s.toList, pyIsDigitChar c = true → c.isDigit = true) →
      ∃ k, mapE keyElem parts = .ok k ∧ AltShape b k := by
  intro parts
  induction parts with
  | nil => intro b _ _; exact ⟨[], rfl, trivial⟩
  | cons s rest ih =>
    intro b hshape hgood
    simp only [PartsShape] at hshape
    obtain ⟨hs, hrest⟩ := hshape
    obtain ⟨k, hk, halt⟩ :=
      ih (!b) hrest (fun t ht => hgood t (List.mem_cons_of_mem s ht))
    cases b with
    | true =>
      rw [if_pos rfl] at hs
      obtain ⟨hne, hdig⟩ := hs
      have hnn : s.toList ≠ [] := fun h => hne ((toList_eq_nil_iff s).1 h)
      have hie : s.toList.isEmpty = false := not_isEmpty_of_ne_nil _ hnn
      have hpd : pyStrIsDigit s = true := by
        simp only [pyStrIsDigit, hie, Bool.not_false, Bool.true_and, List.all_eq_true]
        intro c hc
        simp [pyIsDigitChar, hdig c hc]
      have hio : (!s.toList.isEmpty && s.toList.all Char.isDigit) = true := by
        simp only [hie, Bool.not_false, Bool.true_and, List.all_eq_true]
        exact hdig
      have hpi : pyIntOf s =
          some (s.toList.foldl (fun acc c => 10 * acc + (c.toNat - '0'.toNat)) 0) := by
        unfold pyIntOf
        rw [if_pos hio]
      have hke : keyElem s = .ok (.int (s.toList.foldl
          (fun acc c => 10 * acc + (c.toNat - '0'.toNat)) 0)) := by
        unfold keyElem
        rw [if_pos hpd, hpi]
      refine ⟨.int (s.toList.foldl (fun acc c => 10 * acc + (c.toNat - '0'.toNat)) 0) :: k,
        ?_, rfl, ?_⟩
      · simp only [mapE, hke, pyBind_ok, hk]
      · simpa using halt
    | false =>
      rw [if_neg (by simp)] at hs
      have hpd : pyStrIsDigit s = false := by
        cases hl : s.toList with
        | nil =>
          have hie : s.toList.isEmpty = true := by rw [hl]; rfl
          unfold pyStrIsDigit
          rw [hie]
          rfl
        | cons c ctail =>
          have hc : c ∈ s.toList := by rw [hl]; exact List.mem_cons_self c ctail
          have hcd : pyIsDigitChar c = false := by
            cases hpc : pyIsDigitChar c with
            | false => rfl
            | true =>
              have := hgood s (List.mem_cons_self s rest) c hc hpc
              rw [hs c hc] at this
              exact absurd this (by simp)
          simp only [pyStrIsDigit, Bool.and_eq_false_iff]
          right
          simp only [List.all_eq_false]
          exact ⟨c, hc, by simp [hcd]⟩
      have hke : keyElem s = .ok (.str s) := by
        unfold keyElem
        rw [if_neg (by simp [hpd])]
      refine ⟨.str s :: k, ?_, rfl, ?_⟩
      · simp only [mapE, hke, pyBind_ok, hk]
      · simpa using halt

theorem natural_key_shape (path : String) (h : GoodName (baseLower path)) :
    ∃ k, natural_key path = .ok k ∧ AltShape false k := by
  have hlen : (baseLower path).length < (baseLower path).length + 1 := Nat.lt_succ_self _
  obtain ⟨hshape, hmem⟩ := reSplitF_shape ((baseLower path).length + 1) (baseLower path) hlen
  have hgood : ∀ s ∈ reSplitF ((baseLower path).length + 1) (baseLower path),
      ∀ c ∈ s.toList, pyIsDigitChar c = true → c.isDigit = true := by
    intro s hs c hc hpc
    have hcc : c ∈ baseLower path := hmem s hs c hc
    have := (List.all_eq_true.1 h) c hcc
    simp only [Bool.or_eq_true, Bool.not_eq_true'] at this
    rcases this with h1 | h1
    · rw [h1] at hpc; exact absurd hpc (by simp)
    · exact h1
  exact mapE_keyElem_shape _ false hshape hgood

theorem cmpKey_total :
    ∀ (k1 : List KElem) (b : Bool) (k2 : List KElem), AltShape b k1 → AltShape b k2 →
      ∃ o, cmpKey k1 k2 = .ok o := by
  intro k1
  induction k1 with
  | nil =>
    intro b k2 _ _
    cases k2 with
    | nil => exact ⟨.eq, rfl⟩
    | cons c cs => exact ⟨.lt, rfl⟩
  | cons a as ih =>
    intro b k2 h1 h2
    cases k2 with
    | nil => exact ⟨.gt, rfl⟩
    | cons c cs =>
      simp only [AltShape] at h1 h2
      obtain ⟨ha, has⟩ := h1
      obtain ⟨hc, hcs⟩ := h2
      cases a with
      | str s =>
        cases c with
        | str t =>
          cases ho : charListCompare s.toList t.toList with
          | eq =>
            obtain ⟨o, h⟩ := ih (!b) cs has hcs
            exact ⟨o, by simp only [cmpKey, cmpKElem, ho, pyBind_ok]; exact h⟩
          | lt => exact ⟨.lt, by simp only [cmpKey, cmpKElem, ho, pyBind_ok]⟩
          | gt => exact ⟨.gt, by simp only [cmpKey, cmpKElem, ho, pyBind_ok]⟩
        | int n =>
          rw [← ha] at hc
          exact absurd hc (by simp [KElem.isInt])
      | int m =>
        cases c with
        | int n =>
          by_cases hmn : m < n
          · exact ⟨.lt, by simp only [cmpKey, cmpKElem, if_pos hmn, pyBind_ok]⟩
          · by_cases hnm : n < m
            · exact ⟨.gt, by
                simp only [cmpKey, cmpKElem, if_neg hmn, if_pos hnm, pyBind_ok]⟩
            · obtain ⟨o, h⟩ := ih (!b) cs has hcs
              exact ⟨o, by
                simp only [cmpKey, cmpKElem, if_neg hmn, if_neg hnm, pyBind_ok]
                exact h⟩
        | str t =>
          rw [← ha] at hc
          exact absurd hc (by simp [KElem.isInt])

theorem insertE_total :
    ∀ (l : List (List KElem × String)) (x : List KElem × String),
      AltShape false x.1 → (∀ y ∈ l, AltShape false y.1) →
      ∃ r, insertE x l = .ok r := by
  intro l
  induction l with
  | nil => intro x _ _; exact ⟨[x], rfl⟩
  | cons y ys ih =>
    intro x hx hl
    obtain ⟨o, ho⟩ := cmpKey_total x.1 false y.1 hx (hl y (List.mem_cons_self y ys))
    cases o with
    | gt =>
      obtain ⟨r, hr⟩ := ih x hx (fun z hz => hl z (List.mem_cons_of_mem y hz))
      exact ⟨y :: r, by simp only [insertE, ho, pyBind_ok, hr, pyBind_ok]⟩
    | lt => exact ⟨x :: y :: ys, by simp only [insertE, ho, pyBind_ok]⟩
    | eq => exact ⟨x :: y :: ys, by simp only [insertE, ho, pyBind_ok]⟩

theorem sortE_total :
    ∀ l : List (List KElem × String), (∀ y ∈ l, AltShape false y.1) →
      ∃ r, sortE l = .ok r := by
  intro l
  induction l with
  | nil => intro _; exact ⟨[], rfl⟩
  | cons x xs ih =>
    intro h
    obtain ⟨r1, hr1⟩ := ih (fun z hz => h z (List.mem_cons_of_mem x hz))
    have hsh : ∀ z ∈ r1, AltShape false z.1 := by
      intro z hz
      have := (sortE_mem xs r1 hr1 z).1 hz
      exact h z (List.mem_cons_of_mem x this)
    obtain ⟨r, hr⟩ := insertE_total r1 x (h x (List.mem_cons_self x xs)) hsh
    exact ⟨r, by simp only [sortE, hr1, pyBind_ok]; exact hr⟩

theorem mapE_keys_total :
    ∀ files : List String,
      (∀ f ∈ files, ∃ k, natural_key f = .ok k ∧ AltShape false k) →
      ∃ keyed, mapE (fun f => do
        let k ← natural_key f
        Except.ok (k, f)) files = .ok keyed ∧
        ∀ y ∈ keyed, AltShape false y.1 := by
  intro files
  induction files with
  | nil => intro _; exact ⟨[], rfl, by simp⟩
  | cons f rest ih =>
    intro h
    obtain ⟨k, hk, hsh⟩ := h f (List.mem_cons_self f rest)
    obtain ⟨keyed, hkeyed, hshs⟩ := ih (fun g hg => h g (List.mem_cons_of_mem f hg))
    refine ⟨(k, f) :: keyed, ?_, ?_⟩
    · simp only [mapE, hk, pyBind_ok, hkeyed]
    · intro y hy
      rcases List.mem_cons.1 hy with rfl | hy2
      · exact hsh
      · exact hshs y hy2

/-- Counterexample to C10: the sort is not total on all file paths.
`str.isdigit` accepts the superscript two while `int` rejects it and the
regex class `\d` does not match it, so `natural_key` itself raises
`ValueError` on the name `a1²1.png` and the enumeration fails. -/
theorem natural_key_superscript_counterexample :
    natural_key "d/a1²1.png" = .error pyValueError ∧
    iter_images "d" (.ok [⟨"a1²1.png", false⟩]) = .error pyValueError :=
  ⟨rfl, rfl⟩

/-- C10 as amended: on paths whose lowercased base name contains only
characters for which `str.isdigit` implies the regex class `\d` (all
ASCII names qualify), `natural_key` succeeds and alternates: strings at
every even index and integers at every odd index; two such keys always
compare without error, so on listings of such names the enumeration
(hence its sort) never fails. On names with characters that are
isdigit-true but not `\d`-matchable (e.g. `²`), the key construction
itself raises `ValueError`. -/
theorem natural_key_total_on_ascii :
    (∀ path : String, GoodName (baseLower path) →
      ∃ k, natural_key path = .ok k ∧ AltShape false k) ∧
    (∀ k1 k2 : List KElem, AltShape false k1 → AltShape false k2 →
      ∃ o, cmpKey k1 k2 = .ok o) ∧
    (∀ (d : String) (entries : List DirEntry),
      (∀ e ∈ entries, GoodName (baseLower (pyJoin d e.name))) →
      ∃ res, iter_images d (.ok entries) = .ok res) := by
  refine ⟨natural_key_shape, fun k1 k2 => cmpKey_total k1 false k2, ?_⟩
  intro d entries hgood
  have hfiles : ∀ f ∈ (entries.filter
      (fun e => SUPPORTED_EXT.contains (toLowerStr (splitext_ext e.name)))).map
      (fun e => pyJoin d e.name),
      ∃ k, natural_key f = .ok k ∧ AltShape false k := by
    intro f hf
    obtain ⟨e, he, rfl⟩ := List.mem_map.1 hf
    exact natural_key_shape _ (hgood e (List.mem_filter.1 he).1)
  obtain ⟨keyed, hk, hks⟩ := mapE_keys_total _ hfiles
  obtain ⟨sorted, hs⟩ := sortE_total keyed hks
  exact ⟨sorted.map (fun kf => kf.2), by simp only [iter_images, pyBind_ok, hk, hs]⟩

/-- Witness for the amended C10: a concrete ASCII listing enumerates
without failure. -/
theorem natural_key_total_on_ascii_witness :
    ∃ res, iter_images "d" (.ok [⟨"img2.png", false⟩]) = .ok res :=
  natural_key_total_on_ascii.2.2 "d" [⟨"img2.png", false⟩] (by
    intro e he
    have he2 : e = ⟨"img2.png", false⟩ := by simpa using he
    subst he2
    rfl)
